import Mathlib

/-!
Shallow embedding of `src/functions.py`, a pandas data-cleaning pipeline, and
proofs about it.

A DataFrame is modelled as a `Table`: a list of column names (the header) and a
list of rows, each row a list of cell values aligned positionally with the
header.  A cell value (`Value`) is a string, an integer, or the missing marker
`na` (pandas `NaN`/`None`).  Python exceptions are modelled with `Except Err`.

Each Python function is translated to a Lean definition of the same name.  A
second, heap-passing layer (`Heap`, `readRef`, ...) models Python object
identity, so that in-place mutation versus copy-on-entry is observable.
-/

namespace Pipeline

/-- A cell value: a Python string, a Python int, or the missing marker
(pandas `NaN`). -/
inductive Value where
  | str (s : String)
  | num (n : Int)
  | na
deriving DecidableEq, Repr

/-- Python exceptions raised by the source functions: `KeyError` (missing
column label, or `mode()[0]` on an empty mode series), `IndexError`
(`x[0]` on an empty string), and the `ValueError`/`TypeError` raised by
`astype` on an unconvertible value. -/
inductive Err where
  | keyError
  | indexError
  | castError
deriving DecidableEq, Repr

/-- Target dtypes used with `astype`: `"int64"` and `"str"`. -/
inductive DType where
  | int64
  | strT
deriving DecidableEq, Repr

/-- A pandas DataFrame: named columns with rows aligned by position. -/
structure Table where
  header : List String
  rows : List (List Value)
deriving DecidableEq, Repr

/-! ### Generic list helpers (all structurally recursive, kernel-evaluable) -/

/-- Keep the first occurrence of each element, dropping later duplicates;
`seen` accumulates the elements already emitted.  Models
`DataFrame.drop_duplicates()` (pandas treats `NaN` as equal to `NaN` here,
as does `DecidableEq Value`). -/
def dedupFirstAux {α : Type} [DecidableEq α] (seen : List α) : List α → List α
  | [] => []
  | x :: xs => if x ∈ seen then dedupFirstAux seen xs else x :: dedupFirstAux (x :: seen) xs

/-- Keep the first occurrence of each element of the list. -/
def dedupFirst {α : Type} [DecidableEq α] (l : List α) : List α :=
  dedupFirstAux [] l

/-- Split a character list at every occurrence of `sep`; models Python
`s.split(sep)` for a one-character separator (`"a/b".split('/') = ["a","b"]`,
`"/".split('/') = ["",""]`). -/
def splitChar (sep : Char) : List Char → List (List Char)
  | [] => [[]]
  | c :: cs =>
    let r := splitChar sep cs
    if c = sep then [] :: r
    else
      match r with
      | [] => [[c]]
      | h :: t => (c :: h) :: t

/-- One scan step of Python `s.replace(old, new)` for a non-empty pattern
`o :: os`: leftmost, non-overlapping.  `fuel` bounds the recursion and is
always called with `fuel ≥ s.length`, so the `0` branch is unreachable. -/
def replaceGo (o : Char) (os new : List Char) : Nat → List Char → List Char
  | 0, s => s
  | _ + 1, [] => []
  | fuel + 1, c :: cs =>
    if (o :: os).isPrefixOf (c :: cs) then new ++ replaceGo o os new fuel (cs.drop os.length)
    else c :: replaceGo o os new fuel cs

/-- Python `s.replace(old, new)` on character lists.  For the empty pattern
Python inserts `new` before every character and at the end. -/
def replaceList (s old new : List Char) : List Char :=
  match old with
  | [] => new ++ s.foldr (fun c acc => c :: (new ++ acc)) []
  | o :: os => replaceGo o os new s.length s

/-- Python `s.replace(old, new)` on strings (literal, non-regex). -/
def pyReplace (s old new : String) : String :=
  String.mk (replaceList s.data old.data new.data)

/-- Decimal digit accumulator for `pyInt?`. -/
def digitsGo : List Char → Nat → Option Nat
  | [], acc => some acc
  | c :: cs, acc => if c.isDigit then digitsGo cs (acc * 10 + (c.toNat - 48)) else none

/-- Parse a non-empty all-digit list. -/
def digitsToNat? : List Char → Option Nat
  | [] => none
  | l => digitsGo l 0

/-- Parse a Python int literal (optional minus sign, decimal digits); models
the parsing `astype("int64")` performs on string cells. -/
def pyInt? (s : String) : Option Int :=
  match s.data with
  | '-' :: rest => (digitsToNat? rest).map (fun n => -(n : Int))
  | l => (digitsToNat? l).map (fun n => (n : Int))

/-- Lexicographic order on character lists (code-point order), used to model
the ascending sort inside `Series.mode()`. -/
def lexLe : List Char → List Char → Bool
  | [], _ => true
  | _ :: _, [] => false
  | a :: as, b :: bs => if a = b then lexLe as bs else decide (a < b)

/-- A fixed total order on cell values used only for the sort inside
`Series.mode()`: numbers before strings, numbers by value, strings
lexicographically, `na` first (it never occurs: mode drops `na`). -/
def valLe : Value → Value → Bool
  | .na, _ => true
  | _, .na => false
  | .num a, .num b => decide (a ≤ b)
  | .num _, .str _ => true
  | .str _, .num _ => false
  | .str a, .str b => lexLe a.data b.data

/-- Insert into a `valLe`-sorted list. -/
def insertLe (v : Value) : List Value → List Value
  | [] => [v]
  | x :: xs => if valLe v x then v :: x :: xs else x :: insertLe v xs

/-- Insertion sort by `valLe`. -/
def sortVals : List Value → List Value
  | [] => []
  | x :: xs => insertLe x (sortVals xs)

/-- `Series.mode()`: drop missing values, keep the values of maximal
multiplicity, sorted ascending.  Empty exactly when the column has no
non-missing value. -/
def pdMode (l : List Value) : List Value :=
  let nn := l.filter (fun v => v ≠ Value.na)
  let uniq := dedupFirst nn
  let maxc := uniq.foldl (fun m v => max m (nn.count v)) 0
  sortVals (uniq.filter (fun v => nn.count v = maxc))

/-- Map in `Except`, left to right, stopping at the first error: the
evaluation order of a Python list comprehension whose body may raise. -/
def mapExcept {α β : Type} (f : α → Except Err β) : List α → Except Err (List β)
  | [] => .ok []
  | x :: xs =>
    match f x with
    | .ok y =>
      match mapExcept f xs with
      | .ok ys => .ok (y :: ys)
      | .error e => .error e
    | .error e => .error e

/-! ### Table access -/

/-- Position of the first occurrence of `name` in a label list. -/
def idxOf? (name : String) : List String → Option Nat
  | [] => none
  | n :: ns => if n = name then some 0 else (idxOf? name ns).map (fun i => i + 1)

/-- Index of the column labelled `name`, as in `df[name]`. -/
def colIdx (t : Table) (name : String) : Option Nat :=
  idxOf? name t.header

/-- The column at position `i`, read off every row. -/
def getCol (t : Table) (i : Nat) : List Value :=
  t.rows.map (fun r => r.getD i Value.na)

/-- Overwrite the column at position `i` with `vs` (one value per row), as in
`df[name] = series`. -/
def setCol (t : Table) (i : Nat) (vs : List Value) : Table :=
  { t with rows := List.zipWith (fun r v => r.set i v) t.rows vs }

/-! ### The source functions (pure value level)

Translated from `src/functions.py`.  `df.copy()` is the identity at this
level; object identity is handled by the heap layer below. -/

/-- Column-name formatting step of `format_columns`:
`col.lower().replace(' ', '_')`.  For a one-character pattern, Python's
`str.replace` is the character-wise map. -/
def formatName (s : String) : String :=
  String.mk (s.data.map (fun c => if c.toLower = ' ' then '_' else c.toLower))

/-- `df.rename(columns = m)`: a label that is a key of `m` becomes the mapped
value; any other label passes through. -/
def applyRename (m : List (String × String)) (s : String) : String :=
  match m.find? (fun p => p.1 = s) with
  | some p => p.2
  | none => s

/-- `format_columns(df, column_renames)` (lines 6-23): copy, lower-case the
column names and replace spaces by underscores, then apply the rename
mapping.  The data is untouched. -/
def format_columns (t : Table) (column_renames : List (String × String)) : Table :=
  { header := t.header.map (fun n => applyRename column_renames (formatName n)),
    rows := t.rows }

/-- `mode()[0]` on a gender column: `KeyError` when the mode series is empty
(all values missing), otherwise its first element. -/
def genderModeFill (col : List Value) : Except Err Value :=
  match pdMode col with
  | [] => .error .keyError
  | v :: _ => .ok v

/-- The body of the list comprehension in `clean_gender_column` (line 41):
`x[0].upper() if type(x) == str and x[0].upper() in ['M', 'F'] else
df1['gender'].mode()[0]`.  `col` is `df1['gender']`, which Python does not
reassign until the whole comprehension has been evaluated, so it is the
input column for every element.  `x[0]` on the empty string raises
`IndexError`. -/
def genderTransform (col : List Value) (x : Value) : Except Err Value :=
  match x with
  | .str s =>
    match s.data with
    | [] => .error .indexError
    | c :: _ =>
      if c.toUpper = 'M' ∨ c.toUpper = 'F' then .ok (.str (String.mk [c.toUpper]))
      else genderModeFill col
  | _ => genderModeFill col

/-- `clean_gender_column(df)` (lines 26-44): copy, then rebuild the `gender`
column element-wise with `genderTransform`.  `df1['gender']` raises
`KeyError` when the label is absent. -/
def clean_gender_column (t : Table) : Except Err Table :=
  match colIdx t "gender" with
  | none => .error .keyError
  | some gi =>
    match mapExcept (genderTransform (getCol t gi)) (getCol t gi) with
    | .ok vs => .ok (setCol t gi vs)
    | .error e => .error e

/-- The body of the list comprehension in `clean_number_of_complains_column`
(line 60): `str(x).split('/')[1] if (type(x) is str) and ('/' in x) else x`.
When `'/' ∈ x` the split has at least two segments, so index 1 exists. -/
def complaintTransform (x : Value) : Value :=
  match x with
  | .str s =>
    if s.data.contains '/' then .str (String.mk ((splitChar '/' s.data).getD 1 []))
    else .str s
  | v => v

/-- `clean_number_of_complains_column(df)` (lines 46-63): copy, then rebuild
the `number_of_open_complaints` column element-wise. -/
def clean_number_of_complains_column (t : Table) : Except Err Table :=
  match colIdx t "number_of_open_complaints" with
  | none => .error .keyError
  | some i => .ok (setCol t i ((getCol t i).map complaintTransform))

/-- One element of `df1[column].str.replace(old, new)`: string cells are
replaced literally; the `.str` accessor turns non-string cells of an
object column into `NaN`. -/
def strReplaceValue (old new : String) : Value → Value
  | .str s => .str (pyReplace s old new)
  | _ => .na

/-- `clean_column_by_replacing_string(df, column, replacements)`
(lines 66-85): copy, then for each `[old, new]` pair in order overwrite the
column with its element-wise replacement.  When `replacements` is empty the
loop body never runs, so a missing column is only detected (with
`KeyError`) on the first iteration. -/
def clean_column_by_replacing_string (t : Table) (column : String) :
    List (String × String) → Except Err Table
  | [] => .ok t
  | (old, new) :: rest =>
    match colIdx t column with
    | none => .error .keyError
    | some i =>
      clean_column_by_replacing_string
        (setCol t i ((getCol t i).map (strReplaceValue old new))) column rest

/-- `series.astype(dtype)` on a single cell.  `astype("int64")` parses
numeric strings and fails on non-numeric strings and on missing values;
`astype(str)` renders every cell (pandas turns `NaN` into the string
`"nan"`). -/
def castValue (d : DType) (v : Value) : Except Err Value :=
  match d, v with
  | .int64, .num n => .ok (.num n)
  | .int64, .str s =>
    match pyInt? s with
    | some n => .ok (.num n)
    | none => .error .castError
  | .int64, .na => .error .castError
  | .strT, .num n => .ok (.str (toString n))
  | .strT, .str s => .ok (.str s)
  | .strT, .na => .ok (.str "nan")

/-- `df[key] = df[key].astype(value)` for one mapping entry: `KeyError` when
the label is absent, otherwise cast the whole column, failing if any cell
fails. -/
def astypeCol (t : Table) (k : String) (d : DType) : Except Err Table :=
  match colIdx t k with
  | none => .error .keyError
  | some i =>
    match mapExcept (castValue d) (getCol t i) with
    | .ok vs => .ok (setCol t i vs)
    | .error e => .error e

/-- `reassign_column_data_type(df, columns)` (lines 87-102) at the value
level: fold `astype` over the mapping entries in iteration order, stopping
at the first failure.  (The source mutates `df` in place — see the heap
layer below; the value returned on success is this fold.) -/
def reassign_column_data_type (t : Table) : List (String × DType) → Except Err Table
  | [] => .ok t
  | (k, d) :: rest =>
    match astypeCol t k d with
    | .ok t' => reassign_column_data_type t' rest
    | .error e => .error e

/-- `remove_duplicate_and_empty_rows(df)` (lines 105-120): copy, then
`drop_duplicates()` (keep the first occurrence of each row), then
`dropna()` — pandas' default is `how='any'`, which keeps exactly the rows
whose cells are all non-missing. -/
def remove_duplicate_and_empty_rows (t : Table) : Table :=
  { t with rows := (dedupFirst t.rows).filter (fun r => r.all (fun v => v ≠ Value.na)) }

/-- The `for key, value in cols_to_replace.items()` loop of
`clean_and_format_data` (lines 151-152): one `clean_column_by_replacing_string`
call per configured column, in iteration order. -/
def replaceLoop (t : Table) : List (String × List (String × String)) → Except Err Table
  | [] => .ok t
  | (c, reps) :: rest =>
    match clean_column_by_replacing_string t c reps with
    | .ok t' => replaceLoop t' rest
    | .error e => .error e

/-! ### Heap layer: Python object identity

`clean_and_format_data`'s stages are called on DataFrame *objects*.  A heap
maps references (indices) to tables; a function that begins with `df.copy()`
allocates a fresh reference, while `reassign_column_data_type` writes through
the reference it was given. -/

/-- A reference to a table object. -/
abbrev Ref := Nat

/-- The store of live table objects. -/
abbrev Heap := List Table

/-- Dereference (out-of-range reads give an empty table; theorems only use
in-range references). -/
def readRef (h : Heap) (r : Ref) : Table :=
  h.getD r { header := [], rows := [] }

/-- Overwrite the object at `r` in place. -/
def writeRef (h : Heap) (r : Ref) (t : Table) : Heap :=
  h.set r t

/-- Allocate a fresh object holding `t`; the new reference is distinct from
every existing one. -/
def allocRef (h : Heap) (t : Table) : Heap × Ref :=
  (h ++ [t], h.length)

/-- A stage that starts with `df.copy()` and never raises: the input object
is only read; the result is a fresh object. -/
def copyStepH (f : Table → Table) (h : Heap) (r : Ref) : Heap × Ref :=
  allocRef h (f (readRef h r))

/-- A stage that starts with `df.copy()` and may raise: on success the result
is a fresh object; on an exception the caller's objects are untouched (the
half-built copy is unreachable and dropped). -/
def copyStepEH (f : Table → Except Err Table) (h : Heap) (r : Ref) :
    Heap × Except Err Ref :=
  match f (readRef h r) with
  | .ok t =>
    match allocRef h t with
    | (h', r') => (h', .ok r')
  | .error e => (h, .error e)

/-- `format_columns` on an object: copies, never raises. -/
def format_columnsH (h : Heap) (r : Ref) (m : List (String × String)) : Heap × Ref :=
  copyStepH (fun t => format_columns t m) h r

/-- `remove_duplicate_and_empty_rows` on an object: copies, never raises. -/
def remove_duplicate_and_empty_rowsH (h : Heap) (r : Ref) : Heap × Ref :=
  copyStepH remove_duplicate_and_empty_rows h r

/-- `clean_gender_column` on an object. -/
def clean_gender_columnH (h : Heap) (r : Ref) : Heap × Except Err Ref :=
  copyStepEH clean_gender_column h r

/-- `clean_number_of_complains_column` on an object. -/
def clean_number_of_complains_columnH (h : Heap) (r : Ref) : Heap × Except Err Ref :=
  copyStepEH clean_number_of_complains_column h r

/-- `clean_column_by_replacing_string` on an object. -/
def clean_column_by_replacing_stringH (h : Heap) (r : Ref) (column : String)
    (reps : List (String × String)) : Heap × Except Err Ref :=
  copyStepEH (fun t => clean_column_by_replacing_string t column reps) h r

/-- The loop of `reassign_column_data_type` on an object: each
`df[key] = df[key].astype(value)` writes through the caller's reference; an
exception leaves the writes already made in place. -/
def reassignGoH (h : Heap) (r : Ref) : List (String × DType) → Heap × Except Err Ref
  | [] => (h, .ok r)
  | (k, d) :: rest =>
    match astypeCol (readRef h r) k d with
    | .ok t' => reassignGoH (writeRef h r t') r rest
    | .error e => (h, .error e)

/-- `reassign_column_data_type` on an object (lines 87-102): no `df.copy()` —
the function mutates the object it was given and, on success, returns that
same reference. -/
def reassign_column_data_typeH (h : Heap) (r : Ref) (columns : List (String × DType)) :
    Heap × Except Err Ref :=
  reassignGoH h r columns

/-- `clean_and_format_data(df, cols_to_rename, cols_to_replace,
cols_to_reassign_datatype)` (lines 123-155): copy, then the six stages in
their fixed source order. -/
def clean_and_format_data (t : Table) (cols_to_rename : List (String × String))
    (cols_to_replace : List (String × List (String × String)))
    (cols_to_reassign_datatype : List (String × DType)) : Except Err Table :=
  let t1 := format_columns t cols_to_rename
  let t2 := remove_duplicate_and_empty_rows t1
  match clean_gender_column t2 with
  | .error e => .error e
  | .ok t3 =>
    match clean_number_of_complains_column t3 with
    | .error e => .error e
    | .ok t4 =>
      match replaceLoop t4 cols_to_replace with
      | .error e => .error e
      | .ok t5 => reassign_column_data_type t5 cols_to_reassign_datatype

/-! ### Spec-side definitions -/

/-- A table is rectangular: every row has one cell per column.  Every pandas
DataFrame satisfies this. -/
def Table.wf (t : Table) : Prop :=
  ∀ r ∈ t.rows, r.length = t.header.length

instance (t : Table) : Decidable t.wf :=
  inferInstanceAs (Decidable (∀ r ∈ t.rows, r.length = t.header.length))

/-- The spec's well-formedness condition on a column name: lower-case (no
upper-case letter) and no space character. -/
def isCleanName (s : String) : Bool :=
  s.data.all (fun c => !c.isUpper && c ≠ ' ')

/-- The guard of `clean_gender_column`'s valid branch: a non-empty string
whose first character upper-cases to `M` or `F`. -/
def genderValid : Value → Bool
  | .str s =>
    match s.data with
    | [] => false
    | c :: _ => c.toUpper == 'M' || c.toUpper == 'F'
  | _ => false

/-- The pipeline as the spec describes it: the plain composition
Column Formatter, then Row Deduplicator/Filter, then Gender Normalizer, then
Complaint-Count Extractor, then one String Replacer run per configured
column in configuration order, then Type Reassigner. -/
def pipelineSpecComposition (t : Table) (cols_to_rename : List (String × String))
    (cols_to_replace : List (String × List (String × String)))
    (cols_to_reassign_datatype : List (String × DType)) : Except Err Table :=
  Except.bind
    (clean_gender_column (remove_duplicate_and_empty_rows (format_columns t cols_to_rename)))
    (fun t3 => Except.bind (clean_number_of_complains_column t3)
      (fun t4 => Except.bind
        (cols_to_replace.foldlM (fun acc p => clean_column_by_replacing_string acc p.1 p.2) t4)
        (fun t5 => reassign_column_data_type t5 cols_to_reassign_datatype)))

/-- Decidable equality of `Except` results, for evaluating the definitions
on concrete inputs. -/
instance {ε α : Type} [DecidableEq ε] [DecidableEq α] : DecidableEq (Except ε α) := by
  intro x y
  cases x with
  | ok a =>
    cases y with
    | ok b =>
      cases decEq a b with
      | isTrue h => exact isTrue (by rw [h])
      | isFalse h => exact isFalse (by intro hc; cases hc; exact h rfl)
    | error e => exact isFalse (by intro hc; cases hc)
  | error e =>
    cases y with
    | ok b => exact isFalse (by intro hc; cases hc)
    | error e' =>
      cases decEq e e' with
      | isTrue h => exact isTrue (by rw [h])
      | isFalse h => exact isFalse (by intro hc; cases hc; exact h rfl)

/-! ### Concrete fixtures

Small tables used to instantiate the theorems below on concrete inputs. -/

/-- Gender column whose most frequent raw value is `"Male"`. -/
def c2T : Table := { header := ["gender"], rows := [[.str "Male"], [.str "Male"], [.str "xx"]] }

/-- What `clean_gender_column` produces on `c2T`. -/
def c2T' : Table := { header := ["gender"], rows := [[.str "M"], [.str "M"], [.str "Male"]] }

/-- A one-column, one-row table for the Type Reassigner. -/
def c3T : Table := { header := ["a"], rows := [[.str "1"]] }

/-- `c3T` after casting column `a` to `int64`. -/
def c3T' : Table := { header := ["a"], rows := [[.num 1]] }

/-- A well-formed single-row gender table. -/
def c3wT : Table := { header := ["gender"], rows := [[.str "M"]] }

/-- A gender column that is entirely missing. -/
def c4naT : Table := { header := ["gender"], rows := [[.na]] }

/-- A gender column with no empty string and a non-missing value. -/
def c4okT : Table := { header := ["gender"], rows := [[.str "female"], [.na], [.num 3]] }

/-- Gender column for the frozen-mode theorem. -/
def c5T : Table := { header := ["gender"], rows := [[.str "Male"], [.str "Male"], [.str "xx"]] }

/-- What `clean_gender_column` produces on `c5T`. -/
def c5T' : Table := { header := ["gender"], rows := [[.str "M"], [.str "M"], [.str "Male"]] }

/-- Column values from the spec's String Replacer example. -/
def c8T : Table := { header := ["c"], rows := [[.str "abc123"], [.str "xyz"]] }

/-- The spec's expected String Replacer output. -/
def c8T' : Table := { header := ["c"], rows := [[.str "Abc"], [.str "xyz"]] }

/-- Two-column table whose first column casts to `int64` and whose second
does not. -/
def c10T : Table := { header := ["a", "b"], rows := [[.str "1", .str "x"]] }

/-- `c10T` after the cast of column `a` alone. -/
def c10T' : Table := { header := ["a", "b"], rows := [[.num 1, .str "x"]] }

/-- One-column table with an upper-case name, for the Column Formatter. -/
def c6T : Table := { header := ["GENDER"], rows := [[.str "F"]] }

/-- Complaint-count column with the spec's three example values. -/
def c7T : Table :=
  { header := ["number_of_open_complaints"],
    rows := [[.str "1/5/2018"], [.num 42], [.str "no-slash"]] }

/-- What `clean_number_of_complains_column` produces on `c7T`. -/
def c7T' : Table :=
  { header := ["number_of_open_complaints"],
    rows := [[.str "5"], [.num 42], [.str "no-slash"]] }

/-! ### Character-level lemmas -/

theorem isUpper_eq_false_of_toNat (x : Char) (hx : x.toNat < 65 ∨ 90 < x.toNat) :
    x.isUpper = false := by
  simp only [Char.isUpper, Bool.and_eq_false_iff, decide_eq_false_iff_not, not_le,
    UInt32.lt_def, UInt32.le_def, BitVec.lt_def, BitVec.le_def]
  have hx' : x.val.toBitVec.toNat = x.toNat := rfl
  have h65 : ((65 : UInt32)).toBitVec.toNat = 65 := rfl
  have h90 : ((90 : UInt32)).toBitVec.toNat = 90 := rfl
  rcases hx with h | h
  · left; omega
  · right; omega

theorem isUpper_toLower_eq_false (c : Char) : (Char.toLower c).isUpper = false := by
  unfold Char.toLower
  by_cases h : c.toNat ≥ 65 ∧ c.toNat ≤ 90
  · rw [if_pos h]
    have hv : Nat.isValidChar (Char.toNat c + 32) := Or.inl (by omega)
    have hval : (Char.ofNat (c.toNat + 32)).toNat = c.toNat + 32 := by
      rw [Char.ofNat, dif_pos hv]
      rfl
    exact isUpper_eq_false_of_toNat _ (by omega)
  · rw [if_neg h]
    exact isUpper_eq_false_of_toNat c (by omega)

/-- The column-name formatting step yields a clean name: no upper-case
letter, no space. -/
theorem isCleanName_formatName (s : String) : isCleanName (formatName s) = true := by
  unfold isCleanName formatName
  rw [List.all_eq_true]
  intro c hc
  simp only [String.mk] at hc
  rw [List.mem_map] at hc
  obtain ⟨a, _, ha⟩ := hc
  subst ha
  by_cases hsp : a.toLower = ' '
  · rw [if_pos hsp]
    decide
  · rw [if_neg hsp]
    rw [Bool.and_eq_true, Bool.not_eq_true', decide_eq_true_eq]
    exact ⟨isUpper_toLower_eq_false a, hsp⟩

/-! ### `idxOf?` and cell-list lemmas -/

theorem idxOf?_lt_length {name : String} : ∀ {l : List String} {i : Nat},
    idxOf? name l = some i → i < l.length := by
  intro l
  induction l with
  | nil => intro i h; simp [idxOf?] at h
  | cons n ns ih =>
    intro i h
    rw [idxOf?] at h
    by_cases hn : n = name
    · rw [if_pos hn] at h
      cases h
      simp
    · rw [if_neg hn] at h
      rw [Option.map_eq_some'] at h
      obtain ⟨j, hj, rfl⟩ := h
      have := ih hj
      simp only [List.length_cons]
      omega

theorem getD_set_self {α : Type} (d v : α) : ∀ (r : List α) (i : Nat), i < r.length →
    (r.set i v).getD i d = v := by
  intro r
  induction r with
  | nil => intro i h; simp at h
  | cons x xs ih =>
    intro i h
    cases i with
    | zero => rfl
    | succ j =>
      simp only [List.set_cons_succ, List.getD_cons_succ]
      exact ih j (by simpa using h)

theorem getD_set_ne {α : Type} (d v : α) (r : List α) (i j : Nat) (hij : i ≠ j) :
    (r.set i v).getD j d = r.getD j d := by
  unfold List.getD
  rw [List.get?_eq_getElem?, List.get?_eq_getElem?, List.getElem?_set_ne hij]

/-! ### `mapExcept` lemmas -/

theorem mapExcept_ok_length {α β : Type} {f : α → Except Err β} :
    ∀ {l : List α} {ys : List β}, mapExcept f l = .ok ys → ys.length = l.length := by
  intro l
  induction l with
  | nil => intro ys h; rw [mapExcept] at h; cases h; rfl
  | cons x xs ih =>
    intro ys h
    rw [mapExcept] at h
    cases hfx : f x with
    | error e => rw [hfx] at h; cases h
    | ok y =>
      rw [hfx] at h
      cases hrest : mapExcept f xs with
      | error e => rw [hrest] at h; cases h
      | ok ys' =>
        rw [hrest] at h
        cases h
        simp [ih hrest]

theorem mapExcept_ok_getD {α β : Type} {f : α → Except Err β} (dx : α) (dy : β) :
    ∀ {l : List α} {ys : List β}, mapExcept f l = .ok ys →
      ∀ j, j < l.length → f (l.getD j dx) = .ok (ys.getD j dy) := by
  intro l
  induction l with
  | nil => intro ys _ j hj; simp at hj
  | cons x xs ih =>
    intro ys h j hj
    rw [mapExcept] at h
    cases hfx : f x with
    | error e => rw [hfx] at h; cases h
    | ok y =>
      rw [hfx] at h
      cases hrest : mapExcept f xs with
      | error e => rw [hrest] at h; cases h
      | ok ys' =>
        rw [hrest] at h
        cases h
        cases j with
        | zero => simpa using hfx
        | succ j' =>
          simp only [List.getD_cons_succ]
          exact ih hrest j' (by simpa using hj)

theorem mapExcept_ok_mem {α β : Type} {f : α → Except Err β} :
    ∀ {l : List α} {ys : List β} {y : β}, mapExcept f l = .ok ys → y ∈ ys →
      ∃ x ∈ l, f x = .ok y := by
  intro l
  induction l with
  | nil => intro ys y h hy; rw [mapExcept] at h; cases h; simp at hy
  | cons x xs ih =>
    intro ys y h hy
    rw [mapExcept] at h
    cases hfx : f x with
    | error e => rw [hfx] at h; cases h
    | ok y' =>
      rw [hfx] at h
      cases hrest : mapExcept f xs with
      | error e => rw [hrest] at h; cases h
      | ok ys' =>
        rw [hrest] at h
        cases h
        rcases List.mem_cons.mp hy with rfl | hmem
        · exact ⟨x, List.mem_cons_self x xs, hfx⟩
        · obtain ⟨a, ha, hfa⟩ := ih hrest hmem
          exact ⟨a, List.mem_cons_of_mem x ha, hfa⟩

theorem mapExcept_ok_of_forall {α β : Type} {f : α → Except Err β} :
    ∀ {l : List α}, (∀ x ∈ l, ∃ y, f x = .ok y) → ∃ ys, mapExcept f l = .ok ys := by
  intro l
  induction l with
  | nil => intro _; exact ⟨[], rfl⟩
  | cons x xs ih =>
    intro h
    obtain ⟨y, hy⟩ := h x (List.mem_cons_self x xs)
    obtain ⟨ys, hys⟩ := ih (fun a ha => h a (List.mem_cons_of_mem x ha))
    exact ⟨y :: ys, by rw [mapExcept, hy, hys]⟩

/-! ### `getCol` / `setCol` lemmas -/

theorem header_setCol (t : Table) (i : Nat) (vs : List Value) :
    (setCol t i vs).header = t.header := rfl

theorem length_getCol (t : Table) (i : Nat) : (getCol t i).length = t.rows.length := by
  unfold getCol
  rw [List.length_map]

theorem rows_setCol_length (t : Table) (i : Nat) (vs : List Value)
    (hlen : vs.length = t.rows.length) : (setCol t i vs).rows.length = t.rows.length := by
  unfold setCol
  simp only [List.length_zipWith]
  omega

theorem length_mem_zipWith_set (i : Nat) :
    ∀ (rows : List (List Value)) (vs : List Value) (r : List Value),
      r ∈ List.zipWith (fun r v => r.set i v) rows vs →
      ∃ r₀ ∈ rows, r.length = r₀.length := by
  intro rows
  induction rows with
  | nil => intro vs r hr; simp at hr
  | cons r₀ rs ih =>
    intro vs r hr
    cases vs with
    | nil => simp at hr
    | cons v vs' =>
      rw [List.zipWith_cons_cons] at hr
      rcases List.mem_cons.mp hr with rfl | h
      · exact ⟨r₀, List.mem_cons_self r₀ rs, List.length_set r₀ i v⟩
      · obtain ⟨a, ha, hl⟩ := ih vs' r h
        exact ⟨a, List.mem_cons_of_mem r₀ ha, hl⟩

theorem wf_setCol (t : Table) (i : Nat) (vs : List Value) (hwf : t.wf) :
    (setCol t i vs).wf := by
  intro r hr
  unfold setCol at hr
  simp only at hr
  obtain ⟨r₀, hr₀, hl⟩ := length_mem_zipWith_set i t.rows vs r hr
  rw [hl]
  exact hwf r₀ hr₀

theorem getD_zipWith_set {L : Nat} (i : Nat) (hi : i < L) :
    ∀ (rows : List (List Value)) (vs : List Value),
      (∀ r ∈ rows, r.length = L) → vs.length = rows.length →
      (List.zipWith (fun r v => r.set i v) rows vs).map (fun r => r.getD i Value.na) = vs := by
  intro rows
  induction rows with
  | nil =>
    intro vs _ hlen
    cases vs with
    | nil => rfl
    | cons v vs' => simp at hlen
  | cons r rs ih =>
    intro vs hwf hlen
    cases vs with
    | nil => simp at hlen
    | cons v vs' =>
      simp only [List.zipWith_cons_cons, List.map_cons]
      have hr : r.length = L := hwf r (List.mem_cons_self r rs)
      rw [getD_set_self Value.na v r i (by omega)]
      rw [ih vs' (fun a ha => hwf a (List.mem_cons_of_mem r ha)) (by simpa using hlen)]

theorem getCol_setCol (t : Table) (i : Nat) (vs : List Value) (hwf : t.wf)
    (hi : i < t.header.length) (hlen : vs.length = t.rows.length) :
    getCol (setCol t i vs) i = vs := by
  unfold getCol setCol
  exact getD_zipWith_set i hi t.rows vs hwf hlen

/-! ### `pdMode` lemmas -/

theorem insertLe_ne_nil (v : Value) : ∀ (l : List Value), insertLe v l ≠ [] := by
  intro l
  cases l with
  | nil => simp [insertLe]
  | cons x xs =>
    rw [insertLe]
    by_cases h : valLe v x = true
    · rw [if_pos h]; simp
    · rw [if_neg h]; simp

theorem sortVals_ne_nil (x : Value) (xs : List Value) : sortVals (x :: xs) ≠ [] := by
  rw [sortVals]
  exact insertLe_ne_nil x (sortVals xs)

theorem foldl_max_start_le {α : Type} (f : α → Nat) :
    ∀ (l : List α) (a : Nat), a ≤ l.foldl (fun m x => max m (f x)) a := by
  intro l
  induction l with
  | nil => intro a; exact Nat.le_refl a
  | cons x xs ih =>
    intro a
    rw [List.foldl_cons]
    exact Nat.le_trans (Nat.le_max_left a (f x)) (ih (max a (f x)))

theorem foldl_max_le_of_mem {α : Type} (f : α → Nat) :
    ∀ (l : List α) (a : Nat) (x : α), x ∈ l → f x ≤ l.foldl (fun m y => max m (f y)) a := by
  intro l
  induction l with
  | nil => intro a x hx; simp at hx
  | cons y ys ih =>
    intro a x hx
    rw [List.foldl_cons]
    rcases List.mem_cons.mp hx with rfl | h
    · exact Nat.le_trans (Nat.le_max_right a (f x))
        (foldl_max_start_le f ys (max a (f x)))
    · exact ih _ x h

theorem foldl_max_attained {α : Type} (f : α → Nat) :
    ∀ (l : List α) (a : Nat),
      l.foldl (fun m x => max m (f x)) a = a ∨
      ∃ x ∈ l, f x = l.foldl (fun m x => max m (f x)) a := by
  intro l
  induction l with
  | nil => intro a; left; rfl
  | cons x xs ih =>
    intro a
    rw [List.foldl_cons]
    rcases ih (max a (f x)) with h | h
    · rw [h]
      rcases Nat.le_total a (f x) with hle | hle
      · right
        exact ⟨x, List.mem_cons_self x xs, by omega⟩
      · left
        omega
    · right
      obtain ⟨y, hy, hfy⟩ := h
      exact ⟨y, List.mem_cons_of_mem x hy, hfy⟩

theorem mem_dedupFirstAux {α : Type} [DecidableEq α] (x : α) :
    ∀ (l seen : List α), x ∈ l → x ∉ seen → x ∈ dedupFirstAux seen l := by
  intro l
  induction l with
  | nil => intro seen h _; simp at h
  | cons y ys ih =>
    intro seen hmem hseen
    rw [dedupFirstAux]
    rcases List.mem_cons.mp hmem with rfl | h
    · rw [if_neg hseen]
      exact List.mem_cons_self x _
    · by_cases hy : y ∈ seen
      · rw [if_pos hy]
        exact ih seen h hseen
      · rw [if_neg hy]
        by_cases hxy : x = y
        · subst hxy
          exact List.mem_cons_self x _
        · exact List.mem_cons_of_mem y
            (ih (y :: seen) h (by simp [hseen, hxy]))

theorem dedupFirstAux_subset {α : Type} [DecidableEq α] :
    ∀ (l seen : List α) (x : α), x ∈ dedupFirstAux seen l → x ∈ l := by
  intro l
  induction l with
  | nil => intro seen x h; rw [dedupFirstAux] at h; simp at h
  | cons y ys ih =>
    intro seen x h
    rw [dedupFirstAux] at h
    by_cases hy : y ∈ seen
    · rw [if_pos hy] at h
      exact List.mem_cons_of_mem y (ih seen x h)
    · rw [if_neg hy] at h
      rcases List.mem_cons.mp h with rfl | h'
      · exact List.mem_cons_self x ys
      · exact List.mem_cons_of_mem y (ih (y :: seen) x h')

/-- The mode series is non-empty as soon as the column has a non-missing
value. -/
theorem pdMode_ne_nil (l : List Value) (h : ∃ v ∈ l, v ≠ Value.na) : pdMode l ≠ [] := by
  obtain ⟨v, hv, hvna⟩ := h
  unfold pdMode
  simp only []
  have hvnn : v ∈ l.filter (fun v => v ≠ Value.na) := by
    rw [List.mem_filter]
    exact ⟨hv, by simpa using hvna⟩
  have hvuniq : v ∈ dedupFirst (l.filter (fun v => v ≠ Value.na)) :=
    mem_dedupFirstAux v _ [] hvnn (by simp)
  set nn := l.filter (fun v => v ≠ Value.na) with hnn
  set uniq := dedupFirst nn with huniq
  set maxc := uniq.foldl (fun m v => max m (nn.count v)) 0 with hmaxc
  have hcountv : 1 ≤ nn.count v := List.one_le_count_iff.mpr hvnn
  rcases foldl_max_attained (fun v => nn.count v) uniq 0 with hz | hatt
  · exfalso
    have : nn.count v ≤ maxc := foldl_max_le_of_mem (fun v => nn.count v) uniq 0 v hvuniq
    omega
  · obtain ⟨w, hw, hfw⟩ := hatt
    have : w ∈ uniq.filter (fun v => nn.count v = maxc) := by
      rw [List.mem_filter]
      exact ⟨hw, by simpa using hfw⟩
    cases hfil : uniq.filter (fun v => nn.count v = maxc) with
    | nil => rw [hfil] at this; simp at this
    | cons a as => exact sortVals_ne_nil a as

/-! ### Heap lemmas -/

theorem getD_append_left {α : Type} (d : α) :
    ∀ (l₁ l₂ : List α) (i : Nat), i < l₁.length → (l₁ ++ l₂).getD i d = l₁.getD i d := by
  intro l₁
  induction l₁ with
  | nil => intro l₂ i h; simp at h
  | cons x xs ih =>
    intro l₂ i h
    cases i with
    | zero => rfl
    | succ j =>
      simp only [List.cons_append, List.getD_cons_succ]
      exact ih l₂ j (by simpa using h)

theorem readRef_allocRef (h : Heap) (t : Table) (r : Ref) (hr : r < h.length) :
    readRef (allocRef h t).1 r = readRef h r := by
  unfold readRef allocRef
  exact getD_append_left _ h [t] r hr

theorem readRef_writeRef_self (h : Heap) (r : Ref) (t : Table) (hr : r < h.length) :
    readRef (writeRef h r t) r = t := by
  unfold readRef writeRef
  exact getD_set_self _ t h r hr

theorem length_writeRef (h : Heap) (r : Ref) (t : Table) :
    (writeRef h r t).length = h.length := by
  unfold writeRef
  exact List.length_set h r t

theorem copyStepH_frame (f : Table → Table) (h : Heap) (r : Ref) (hr : r < h.length) :
    readRef (copyStepH f h r).1 r = readRef h r ∧ (copyStepH f h r).2 ≠ r := by
  unfold copyStepH
  refine ⟨readRef_allocRef h _ r hr, ?_⟩
  show h.length ≠ r
  exact fun hc => absurd hr (by rw [hc]; exact Nat.lt_irrefl r)

theorem copyStepEH_frame (f : Table → Except Err Table) (h : Heap) (r : Ref)
    (hr : r < h.length) :
    readRef (copyStepEH f h r).1 r = readRef h r ∧
    ∀ r', (copyStepEH f h r).2 = .ok r' → r' ≠ r := by
  unfold copyStepEH
  cases hf : f (readRef h r) with
  | ok t =>
    refine ⟨readRef_allocRef h t r hr, ?_⟩
    intro r' hr'
    have : h.length = r' := by
      have := hr'
      simp only [allocRef] at this
      cases this
      rfl
    rw [← this]
    exact fun hc => absurd hr (by rw [hc]; exact Nat.lt_irrefl r)
  | error e =>
    exact ⟨rfl, fun r' hr' => by cases hr'⟩

/-! ### `find?` middle-element removal (for unmatched rename keys) -/

theorem find?_skip_unmatched (k : String) (v : String) (s : String) (hks : ¬ k = s) :
    ∀ (m₁ m₂ : List (String × String)),
      (m₁ ++ (k, v) :: m₂).find? (fun p => p.1 = s) = (m₁ ++ m₂).find? (fun p => p.1 = s) := by
  intro m₁ m₂
  induction m₁ with
  | nil =>
    simp only [List.nil_append, List.find?]
    rw [decide_eq_false hks]
  | cons q m₁' ih =>
    simp only [List.cons_append, List.find?]
    cases hq : (decide (q.1 = s)) with
    | true => rfl
    | false => exact ih

/-! ### Fixed behavior of the string-replacement loop -/

theorem clean_replace_fold (c : String) :
    ∀ (reps : List (String × String)) (t : Table) (i : Nat), t.wf → colIdx t c = some i →
      ∃ t', clean_column_by_replacing_string t c reps = .ok t' ∧
        t'.header = t.header ∧ t'.wf ∧ t'.rows.length = t.rows.length ∧
        getCol t' i =
          (getCol t i).map (fun v => reps.foldl (fun w p => strReplaceValue p.1 p.2 w) v) := by
  intro reps
  induction reps with
  | nil =>
    intro t i hwf hc
    refine ⟨t, rfl, rfl, hwf, rfl, ?_⟩
    simp
  | cons p rest ih =>
    intro t i hwf hc
    obtain ⟨o, n⟩ := p
    have hi : i < t.header.length := idxOf?_lt_length hc
    have hlen : ((getCol t i).map (strReplaceValue o n)).length = t.rows.length := by
      rw [List.length_map, length_getCol]
    set t₁ := setCol t i ((getCol t i).map (strReplaceValue o n)) with ht₁
    have hwf₁ : t₁.wf := wf_setCol t i _ hwf
    have hc₁ : colIdx t₁ c = some i := hc
    obtain ⟨t', hrun, hhead, hwf', hrows, hcol⟩ := ih t₁ i hwf₁ hc₁
    refine ⟨t', ?_, ?_, hwf', ?_, ?_⟩
    · rw [clean_column_by_replacing_string]
      rw [hc]
      exact hrun
    · rw [hhead]; rfl
    · rw [hrows, ht₁, rows_setCol_length t i _ hlen]
    · rw [hcol, ht₁, getCol_setCol t i _ hwf hi hlen, List.map_map]
      rfl

/-! ### Gender-column lemmas -/

theorem genderModeFill_ok {col : List Value} {v : Value}
    (h : genderModeFill col = .ok v) : (pdMode col).head? = some v := by
  rw [genderModeFill] at h
  cases hm : pdMode col with
  | nil => rw [hm] at h; cases h
  | cons m ms =>
    rw [hm] at h
    cases h
    rfl

/-- Unpacking a successful `clean_gender_column` run: the output is the input
with the gender column rebuilt, and that column is recovered by `getCol`. -/
theorem clean_gender_ok_getCol {t t' : Table} {gi : Nat} (hwf : t.wf)
    (hg : colIdx t "gender" = some gi) (hok : clean_gender_column t = .ok t') :
    ∃ vs, mapExcept (genderTransform (getCol t gi)) (getCol t gi) = .ok vs ∧
      t' = setCol t gi vs ∧ getCol t' gi = vs := by
  have hok2 : (match mapExcept (genderTransform (getCol t gi)) (getCol t gi) with
      | Except.ok vs => Except.ok (setCol t gi vs)
      | Except.error e => Except.error e) = Except.ok t' := by
    rw [clean_gender_column, hg] at hok
    exact hok
  cases hmap : mapExcept (genderTransform (getCol t gi)) (getCol t gi) with
  | error e => rw [hmap] at hok2; cases hok2
  | ok vs =>
    rw [hmap] at hok2
    cases hok2
    refine ⟨vs, rfl, rfl, ?_⟩
    exact getCol_setCol t gi vs hwf (idxOf?_lt_length hg)
      (by rw [mapExcept_ok_length hmap, length_getCol])

/-- `replaceLoop` is the monadic fold of the String Replacer over the
configuration, in iteration order. -/
theorem replaceLoop_eq_foldlM :
    ∀ (cfg : List (String × List (String × String))) (t : Table),
      replaceLoop t cfg =
        cfg.foldlM (fun acc p => clean_column_by_replacing_string acc p.1 p.2) t := by
  intro cfg
  induction cfg with
  | nil => intro t; rfl
  | cons p rest ih =>
    intro t
    obtain ⟨c, reps⟩ := p
    rw [List.foldlM_cons]
    rw [replaceLoop]
    cases hc : clean_column_by_replacing_string t c reps with
    | ok t' => exact ih t'
    | error e => rfl

/-- The in-place cast loop: if the pure sequential casts of `pre` succeed
with result `t'` and the next cast fails, the run returns that error with
the caller's object holding `t'`. -/
theorem reassignGoH_earlier (r : Ref) (k : String) (d : DType)
    (post : List (String × DType)) (t' : Table) (e : Err)
    (hfail : astypeCol t' k d = .error e) :
    ∀ (pre : List (String × DType)) (h : Heap), r < h.length →
      reassign_column_data_type (readRef h r) pre = .ok t' →
      (reassign_column_data_typeH h r (pre ++ (k, d) :: post)).2 = .error e ∧
      readRef (reassign_column_data_typeH h r (pre ++ (k, d) :: post)).1 r = t' := by
  intro pre
  induction pre with
  | nil =>
    intro h hr hpre
    rw [reassign_column_data_type] at hpre
    cases hpre
    rw [List.nil_append, reassign_column_data_typeH, reassignGoH, hfail]
    exact ⟨rfl, rfl⟩
  | cons p pre' ih =>
    intro h hr hpre
    obtain ⟨k₀, d₀⟩ := p
    rw [reassign_column_data_type] at hpre
    cases ha : astypeCol (readRef h r) k₀ d₀ with
    | error e₀ =>
      rw [ha] at hpre
      exact (Except.noConfusion hpre)
    | ok t₀ =>
      rw [ha] at hpre
      have hr' : r < (writeRef h r t₀).length := by
        rw [length_writeRef]
        exact hr
      have hread : readRef (writeRef h r t₀) r = t₀ := readRef_writeRef_self h r t₀ hr
      have hrec := ih (writeRef h r t₀) hr' (by rw [hread]; exact hpre)
      rw [List.cons_append, reassign_column_data_typeH, reassignGoH, ha]
      exact hrec

/-! ## The claims -/

/-- C1: the spec says a row with at least one missing field but some
non-missing fields is retained, and only all-missing rows are removed.  The
code calls `dropna()` with its default `how='any'` and therefore drops the
row `["A", missing]`, which has a non-missing field — contradicting the
function's own docstring ("rows with all the columns empty"). -/
theorem c1_mixed_row_dropped :
    remove_duplicate_and_empty_rows
        { header := ["customer", "state"], rows := [[Value.str "A", Value.na]] } =
      { header := ["customer", "state"], rows := [] } := by
  decide

/-- C6 counterexample: with column `"ST"` and rename mapping
`{"st": "State X"}` the output column name is `"State X"`, which contains a
space and an upper-case letter, refuting "output column names are all
lower-case and contain no space characters" for every rename mapping. -/
theorem c6_counterexample :
    (format_columns { header := ["ST"], rows := [] } [("st", "State X")]).header =
      ["State X"] ∧
    isCleanName "State X" = false := by
  decide

/-- C6 (amended): column names are first lower-cased with spaces replaced by
underscores and then passed through the rename mapping, order-preserving,
with the data unchanged; a name not matched by the mapping is lower-case
with no spaces (a matched name becomes the mapped value verbatim, which
need not be); a mapping key matching no formatted column name has no
effect. -/
theorem c6_format_columns_amended (t : Table) (m : List (String × String)) :
    (format_columns t m).header = t.header.map (fun n => applyRename m (formatName n)) ∧
    (format_columns t m).rows = t.rows ∧
    (∀ n : String, m.find? (fun p => p.1 = formatName n) = none →
      isCleanName (applyRename m (formatName n)) = true) ∧
    (∀ k v : String, (∀ n ∈ t.header, ¬ formatName n = k) →
      ∀ m₁ m₂ : List (String × String),
        format_columns t (m₁ ++ (k, v) :: m₂) = format_columns t (m₁ ++ m₂)) := by
  refine ⟨rfl, rfl, ?_, ?_⟩
  · intro n hn
    unfold applyRename
    rw [hn]
    exact isCleanName_formatName n
  · intro k v hk m₁ m₂
    unfold format_columns
    have : t.header.map (fun n => applyRename (m₁ ++ (k, v) :: m₂) (formatName n)) =
        t.header.map (fun n => applyRename (m₁ ++ m₂) (formatName n)) := by
      apply List.map_congr_left
      intro n hn
      unfold applyRename
      rw [find?_skip_unmatched k v (formatName n) (fun hkn => hk n hn hkn.symm) m₁ m₂]
    rw [this]

/-- C6 witness: a concrete table and mapping instantiating the amended
theorem; the formatted name `"gender"` is not a key of the mapping, so its
cleanliness follows, and the key `"customer id"` matches nothing. -/
theorem c6_witness :
    (([("st", "state")] : List (String × String)).find?
        (fun p => p.1 = formatName "GENDER") = none) ∧
    (∀ n ∈ c6T.header, ¬ formatName n = "customer id") ∧
    ((format_columns c6T [("st", "state")]).header =
        c6T.header.map (fun n => applyRename [("st", "state")] (formatName n)) ∧
      (format_columns c6T [("st", "state")]).rows = c6T.rows ∧
      (∀ n : String,
        ([("st", "state")] : List (String × String)).find? (fun p => p.1 = formatName n) = none →
        isCleanName (applyRename [("st", "state")] (formatName n)) = true) ∧
      (∀ k v : String, (∀ n ∈ c6T.header, ¬ formatName n = k) →
        ∀ m₁ m₂ : List (String × String),
          format_columns c6T (m₁ ++ (k, v) :: m₂) = format_columns c6T (m₁ ++ m₂))) := by
  refine ⟨by decide, by decide, ?_⟩
  exact c6_format_columns_amended c6T [("st", "state")]

/-- C2 counterexample: on a gender column whose most frequent raw value is
`"Male"`, the invalid entry `"xx"` is filled with the raw mode `"Male"`, so
not every output value is exactly `"M"` or `"F"`. -/
theorem c2_counterexample :
    clean_gender_column c2T = .ok c2T' ∧
    Value.str "Male" ∈ getCol c2T' 0 ∧
    ¬ (Value.str "Male" = Value.str "M" ∨ Value.str "Male" = Value.str "F") := by
  decide

/-- C2 (amended): on a successful run, every output gender value is `"M"`,
`"F"`, or the first modal value of the input column as it stood before the
pass — and that modal value need not be `"M"` or `"F"`. -/
theorem c2_gender_values_amended (t : Table) (gi : Nat) (t' : Table) (hwf : t.wf)
    (hg : colIdx t "gender" = some gi) (hok : clean_gender_column t = .ok t') :
    ∀ v ∈ getCol t' gi,
      v = Value.str "M" ∨ v = Value.str "F" ∨ (pdMode (getCol t gi)).head? = some v := by
  obtain ⟨vs, hmap, _, hcol⟩ := clean_gender_ok_getCol hwf hg hok
  intro v hv
  rw [hcol] at hv
  obtain ⟨x, _, hfx⟩ := mapExcept_ok_mem hmap hv
  cases x with
  | str s =>
    cases hsd : s.data with
    | nil =>
      simp only [genderTransform, hsd] at hfx
      exact (Except.noConfusion hfx)
    | cons c cs =>
      simp only [genderTransform, hsd] at hfx
      by_cases hc : c.toUpper = 'M' ∨ c.toUpper = 'F'
      · rw [if_pos hc] at hfx
        cases hfx
        rcases hc with h | h
        · left; rw [h]
        · right; left; rw [h]
      · rw [if_neg hc] at hfx
        exact Or.inr (Or.inr (genderModeFill_ok hfx))
  | num n =>
    simp only [genderTransform] at hfx
    exact Or.inr (Or.inr (genderModeFill_ok hfx))
  | na =>
    simp only [genderTransform] at hfx
    exact Or.inr (Or.inr (genderModeFill_ok hfx))

/-- C2 witness: the amended theorem instantiated on `c2T`, whose output
column is `["M", "M", "Male"]`. -/
theorem c2_witness :
    c2T.wf ∧ colIdx c2T "gender" = some 0 ∧ clean_gender_column c2T = .ok c2T' ∧
    ∀ v ∈ getCol c2T' 0,
      v = Value.str "M" ∨ v = Value.str "F" ∨ (pdMode (getCol c2T 0)).head? = some v := by
  refine ⟨by decide, by decide, by decide, ?_⟩
  exact c2_gender_values_amended c2T 0 c2T' (by decide) (by decide) (by decide)

/-- C4 counterexample: on a table whose gender column exists but holds only
a missing value — so it has no valid M/F entry — `clean_gender_column`
raises (`mode()[0]` on an empty mode series is a `KeyError`), refuting
"must not raise". -/
theorem c4_counterexample :
    colIdx c4naT "gender" = some 0 ∧
    clean_gender_column c4naT = .error Err.keyError := by
  decide

/-- C4 (amended): `clean_gender_column` returns without raising provided the
gender column contains no empty-string value and is either empty or has at
least one non-missing value; it raises `KeyError` when a non-empty column
is all-missing and `IndexError` on an empty-string value. -/
theorem c4_no_raise_amended (t : Table) (gi : Nat)
    (hg : colIdx t "gender" = some gi)
    (hnes : ∀ v ∈ getCol t gi, v ≠ Value.str "")
    (hnn : getCol t gi = [] ∨ ∃ v ∈ getCol t gi, v ≠ Value.na) :
    ∃ t', clean_gender_column t = .ok t' := by
  rw [clean_gender_column, hg]
  show ∃ t', (match mapExcept (genderTransform (getCol t gi)) (getCol t gi) with
      | Except.ok vs => Except.ok (setCol t gi vs)
      | Except.error e => Except.error e) = Except.ok t'
  have hall : ∀ x ∈ getCol t gi, ∃ y, genderTransform (getCol t gi) x = .ok y := by
    intro x hx
    have hcol : ∃ v ∈ getCol t gi, v ≠ Value.na := by
      rcases hnn with h | h
      · rw [h] at hx; simp at hx
      · exact h
    have hmf : ∃ y, genderModeFill (getCol t gi) = .ok y := by
      have hne := pdMode_ne_nil _ hcol
      rw [genderModeFill]
      cases hm : pdMode (getCol t gi) with
      | nil => exact absurd hm hne
      | cons m ms => exact ⟨m, rfl⟩
    cases x with
    | str s =>
      cases hsd : s.data with
      | nil =>
        exfalso
        apply hnes _ hx
        cases s with
        | mk d =>
          cases hsd
          rfl
      | cons c cs =>
        simp only [genderTransform, hsd]
        by_cases hc : c.toUpper = 'M' ∨ c.toUpper = 'F'
        · rw [if_pos hc]
          exact ⟨_, rfl⟩
        · rw [if_neg hc]
          exact hmf
    | num n =>
      simp only [genderTransform]
      exact hmf
    | na =>
      simp only [genderTransform]
      exact hmf
  obtain ⟨ys, hys⟩ := mapExcept_ok_of_forall hall
  rw [hys]
  exact ⟨_, rfl⟩

/-- C4 witness: a gender column with a valid entry, a missing entry and a
numeric entry — no empty string, not all-missing — on which the cleaner
returns successfully. -/
theorem c4_witness :
    colIdx c4okT "gender" = some 0 ∧
    (∀ v ∈ getCol c4okT 0, v ≠ Value.str "") ∧
    (getCol c4okT 0 = [] ∨ ∃ v ∈ getCol c4okT 0, v ≠ Value.na) ∧
    ∃ t', clean_gender_column c4okT = .ok t' := by
  refine ⟨by decide, by decide, by decide, ?_⟩
  exact c4_no_raise_amended c4okT 0 (by decide) (by decide) (by decide)

/-- C5: on a successful pass, every entry that fails the M/F test is
replaced by the head of the mode series of the gender column *as it stood
before the pass* — the comprehension is fully evaluated before
`df1['gender']` is reassigned — so a single modal value serves every
invalid entry. -/
theorem c5_frozen_mode_fill (t : Table) (gi : Nat) (t' : Table) (hwf : t.wf)
    (hg : colIdx t "gender" = some gi) (hok : clean_gender_column t = .ok t') :
    ∀ j, j < (getCol t gi).length →
      genderValid ((getCol t gi).getD j Value.na) = false →
      (pdMode (getCol t gi)).head? = some ((getCol t' gi).getD j Value.na) := by
  obtain ⟨vs, hmap, _, hcol⟩ := clean_gender_ok_getCol hwf hg hok
  intro j hj hinv
  rw [hcol]
  have hfx := mapExcept_ok_getD Value.na Value.na hmap j hj
  cases hx : (getCol t gi).getD j Value.na with
  | str s =>
    rw [hx] at hfx hinv
    cases hsd : s.data with
    | nil =>
      simp only [genderTransform, hsd] at hfx
      exact (Except.noConfusion hfx)
    | cons c cs =>
      simp only [genderTransform, hsd] at hfx
      have hc : ¬ (c.toUpper = 'M' ∨ c.toUpper = 'F') := by
        simp only [genderValid, hsd, Bool.or_eq_false_iff, beq_eq_false_iff_ne] at hinv
        rintro (h | h)
        · exact hinv.1 h
        · exact hinv.2 h
      rw [if_neg hc] at hfx
      exact genderModeFill_ok hfx
  | num n =>
    rw [hx] at hfx
    simp only [genderTransform] at hfx
    exact genderModeFill_ok hfx
  | na =>
    rw [hx] at hfx
    simp only [genderTransform] at hfx
    exact genderModeFill_ok hfx

/-- C5 witness: on `c5T` the invalid entry at row 2 (`"xx"`) is filled with
`"Male"`, the head of the mode series of the untouched input column. -/
theorem c5_witness :
    c5T.wf ∧ colIdx c5T "gender" = some 0 ∧ clean_gender_column c5T = .ok c5T' ∧
    2 < (getCol c5T 0).length ∧
    genderValid ((getCol c5T 0).getD 2 Value.na) = false ∧
    (pdMode (getCol c5T 0)).head? = some ((getCol c5T' 0).getD 2 Value.na) := by
  refine ⟨by decide, by decide, by decide, by decide, by decide, ?_⟩
  exact c5_frozen_mode_fill c5T 0 c5T' (by decide) (by decide) (by decide) 2
    (by decide) (by decide)

/-- C7: every value of the `number_of_open_complaints` column is replaced by
the segment at index 1 of its split on `/` exactly when it is a string
containing `/` (the result staying a string: no numeric conversion), and is
left unchanged otherwise — non-strings and slash-free strings pass
through. -/
theorem c7_complaints_extraction (t : Table) (i : Nat) (t' : Table) (hwf : t.wf)
    (hi : colIdx t "number_of_open_complaints" = some i)
    (hok : clean_number_of_complains_column t = .ok t') :
    t'.header = t.header ∧
    getCol t' i = (getCol t i).map complaintTransform ∧
    (∀ s : String, s.data.contains '/' = true →
      complaintTransform (.str s) = .str (String.mk ((splitChar '/' s.data).getD 1 []))) ∧
    (∀ s : String, s.data.contains '/' = false → complaintTransform (.str s) = .str s) ∧
    (∀ n : Int, complaintTransform (.num n) = .num n) ∧
    complaintTransform Value.na = Value.na := by
  rw [clean_number_of_complains_column, hi] at hok
  cases hok
  refine ⟨rfl, ?_, ?_, ?_, fun n => rfl, rfl⟩
  · exact getCol_setCol t i _ hwf (idxOf?_lt_length hi)
      (by rw [List.length_map, length_getCol])
  · intro s hs
    rw [complaintTransform, if_pos hs]
  · intro s hs
    rw [complaintTransform, if_neg (show ¬ s.data.contains '/' = true by rw [hs]; simp)]

/-- C7 witness: the spec's examples — `"1/5/2018"` becomes `"5"`, the
non-string `42` and the slash-free `"no-slash"` are unchanged. -/
theorem c7_witness :
    c7T.wf ∧
    colIdx c7T "number_of_open_complaints" = some 0 ∧
    clean_number_of_complains_column c7T = .ok c7T' ∧
    getCol c7T' 0 = (getCol c7T 0).map complaintTransform := by
  refine ⟨by decide, by decide, by decide, ?_⟩
  exact (c7_complaints_extraction c7T 0 c7T' (by decide) (by decide) (by decide)).2.1

/-- C3 counterexample: `reassign_column_data_type` takes no copy — a
successful call on the object holding `c3T` overwrites the caller's table
(column `a` is cast in place) and returns the very reference it was given,
so the input is changed and the result is not a new table. -/
theorem c3_counterexample :
    readRef (reassign_column_data_typeH [c3T] 0 [("a", DType.int64)]).1 0 ≠
      readRef [c3T] 0 ∧
    (reassign_column_data_typeH [c3T] 0 [("a", DType.int64)]).2 = .ok 0 := by
  decide

/-- C3 (amended): the five components that begin with `df.copy()` — Column
Formatter, Row Deduplicator/Filter, Gender Normalizer, Complaint-Count
Extractor, String Replacer — leave the caller's table unchanged and, on
success, return a reference distinct from the input; the Type Reassigner is
the exception (see the counterexample). -/
theorem c3_copy_components_no_mutation (h : Heap) (r : Ref) (hr : r < h.length) :
    (∀ m, readRef (format_columnsH h r m).1 r = readRef h r ∧
      (format_columnsH h r m).2 ≠ r) ∧
    (readRef (remove_duplicate_and_empty_rowsH h r).1 r = readRef h r ∧
      (remove_duplicate_and_empty_rowsH h r).2 ≠ r) ∧
    (readRef (clean_gender_columnH h r).1 r = readRef h r ∧
      ∀ r', (clean_gender_columnH h r).2 = .ok r' → r' ≠ r) ∧
    (readRef (clean_number_of_complains_columnH h r).1 r = readRef h r ∧
      ∀ r', (clean_number_of_complains_columnH h r).2 = .ok r' → r' ≠ r) ∧
    (∀ c reps, readRef (clean_column_by_replacing_stringH h r c reps).1 r = readRef h r ∧
      ∀ r', (clean_column_by_replacing_stringH h r c reps).2 = .ok r' → r' ≠ r) := by
  refine ⟨fun m => copyStepH_frame _ h r hr, copyStepH_frame _ h r hr,
    copyStepEH_frame _ h r hr, copyStepEH_frame _ h r hr,
    fun c reps => copyStepEH_frame _ h r hr⟩

/-- C3 witness: the amended theorem on the one-object heap `[c3wT]`. -/
theorem c3_witness :
    (0 < ([c3wT] : Heap).length) ∧
    ((∀ m, readRef (format_columnsH [c3wT] 0 m).1 0 = readRef [c3wT] 0 ∧
        (format_columnsH [c3wT] 0 m).2 ≠ 0) ∧
      (readRef (remove_duplicate_and_empty_rowsH [c3wT] 0).1 0 = readRef [c3wT] 0 ∧
        (remove_duplicate_and_empty_rowsH [c3wT] 0).2 ≠ 0) ∧
      (readRef (clean_gender_columnH [c3wT] 0).1 0 = readRef [c3wT] 0 ∧
        ∀ r', (clean_gender_columnH [c3wT] 0).2 = .ok r' → r' ≠ 0) ∧
      (readRef (clean_number_of_complains_columnH [c3wT] 0).1 0 = readRef [c3wT] 0 ∧
        ∀ r', (clean_number_of_complains_columnH [c3wT] 0).2 = .ok r' → r' ≠ 0) ∧
      (∀ c reps,
        readRef (clean_column_by_replacing_stringH [c3wT] 0 c reps).1 0 = readRef [c3wT] 0 ∧
        ∀ r', (clean_column_by_replacing_stringH [c3wT] 0 c reps).2 = .ok r' → r' ≠ 0)) := by
  exact ⟨by decide, c3_copy_components_no_mutation [c3wT] 0 (by decide)⟩

/-- C8: the String Replacer applies the `(old, new)` pairs as literal
substring replacements over every value of the column, in list order, so the
whole run is the per-value left fold of the pairs — each later pair operates
on the values rewritten by the earlier ones. -/
theorem c8_sequential_replacement (t : Table) (c : String) (i : Nat)
    (reps : List (String × String)) (hwf : t.wf) (hc : colIdx t c = some i) :
    ∃ t', clean_column_by_replacing_string t c reps = .ok t' ∧
      t'.header = t.header ∧
      getCol t' i = (getCol t i).map
        (fun v => reps.foldl (fun w p => strReplaceValue p.1 p.2 w) v) ∧
      ∀ s old new : String, strReplaceValue old new (.str s) = .str (pyReplace s old new) := by
  obtain ⟨t', h1, h2, _, _, h5⟩ := clean_replace_fold c reps t i hwf hc
  exact ⟨t', h1, h2, h5, fun s old new => rfl⟩

/-- C8 witness: the spec's example — values `["abc123", "xyz"]` with
replacements `[["123", ""], ["a", "A"]]` yield `["Abc", "xyz"]`: the second
pair sees `"abc"`, the output of the first. -/
theorem c8_witness :
    c8T.wf ∧ colIdx c8T "c" = some 0 ∧
    clean_column_by_replacing_string c8T "c" [("123", ""), ("a", "A")] = .ok c8T' ∧
    ∃ t', clean_column_by_replacing_string c8T "c" [("123", ""), ("a", "A")] = .ok t' ∧
      t'.header = c8T.header ∧
      getCol t' 0 = (getCol c8T 0).map
        (fun v => [("123", ""), ("a", "A")].foldl (fun w p => strReplaceValue p.1 p.2 w) v) ∧
      ∀ s old new : String, strReplaceValue old new (.str s) = .str (pyReplace s old new) := by
  refine ⟨by decide, by decide, by decide, ?_⟩
  exact c8_sequential_replacement c8T "c" 0 [("123", ""), ("a", "A")] (by decide) (by decide)

/-- C9: the orchestrator equals the plain composition of the stage functions
in the fixed order Column Formatter, Row Deduplicator/Filter, Gender
Normalizer, Complaint-Count Extractor, one String Replacer run per
configured column in configuration order, Type Reassigner. -/
theorem c9_pipeline_composition (t : Table) (ren : List (String × String))
    (reps : List (String × List (String × String))) (types : List (String × DType)) :
    clean_and_format_data t ren reps types = pipelineSpecComposition t ren reps types := by
  simp only [clean_and_format_data, pipelineSpecComposition]
  cases hg : clean_gender_column (remove_duplicate_and_empty_rows (format_columns t ren)) with
  | error e => rfl
  | ok t3 =>
    simp only [Except.bind]
    cases hc : clean_number_of_complains_column t3 with
    | error e => rfl
    | ok t4 =>
      simp only [Except.bind]
      rw [← replaceLoop_eq_foldlM reps t4]
      cases hr : replaceLoop t4 reps with
      | error e => rfl
      | ok t5 => rfl

/-- C10: when a cast in the middle of the mapping fails, the casts of all
earlier mapping entries have already been applied, and — the function
operating on the caller's object without a copy — they are visible in the
caller's table even though the call raises. -/
theorem c10_reassign_earlier_casts_visible (h : Heap) (r : Ref)
    (pre : List (String × DType)) (k : String) (d : DType)
    (post : List (String × DType)) (t' : Table) (e : Err) (hr : r < h.length)
    (hpre : reassign_column_data_type (readRef h r) pre = .ok t')
    (hfail : astypeCol t' k d = .error e) :
    (reassign_column_data_typeH h r (pre ++ (k, d) :: post)).2 = .error e ∧
    readRef (reassign_column_data_typeH h r (pre ++ (k, d) :: post)).1 r = t' := by
  exact reassignGoH_earlier r k d post t' e hfail pre h hr hpre

/-- C10 witness: on `[c10T]`, casting `a` succeeds and casting `b` fails;
the call returns the cast error while the caller's table already holds the
cast column `a`. -/
theorem c10_witness :
    (0 < ([c10T] : Heap).length) ∧
    reassign_column_data_type (readRef [c10T] 0) [("a", DType.int64)] = .ok c10T' ∧
    astypeCol c10T' "b" DType.int64 = .error Err.castError ∧
    ((reassign_column_data_typeH [c10T] 0
        ([("a", DType.int64)] ++ ("b", DType.int64) :: [])).2 = .error Err.castError ∧
      readRef (reassign_column_data_typeH [c10T] 0
        ([("a", DType.int64)] ++ ("b", DType.int64) :: [])).1 0 = c10T') := by
  refine ⟨by decide, by decide, by decide, ?_⟩
  exact c10_reassign_earlier_casts_visible [c10T] 0 [("a", DType.int64)] "b" DType.int64 []
    c10T' Err.castError (by decide) (by decide) (by decide)

end Pipeline
